import Mathlib

/-!
Verification of the status-line formatting engine of the `rahmen` repository
(`src/provider.rs`), via a shallow embedding in Lean 4.

Strings are embedded as `List Char`.  External collaborators (the regex
engine, the case-converter crate, the metadata store and the Python
postprocess hook) are embedded as explicit function parameters or, where a
claim needs concrete behaviour, as executable models whose doc comments say
what is being modelled.  All functions from `src/provider.rs` keep their
source names.
-/

/-- Strings of the embedding: the character list underlying a Rust `String`. -/
abbrev Str := List Char

/-- Decides whether `p` is a prefix of `s` (character-by-character). -/
def isPref : Str → Str → Bool
  | [], _ => true
  | _ :: _, [] => false
  | a :: as, b :: bs => a == b && isPref as bs

/-- Decides whether `p` occurs as a contiguous substring of `s`. -/
def containsSeq (p : Str) : Str → Bool
  | [] => isPref p []
  | c :: s => isPref p (c :: s) || containsSeq p s

/-- Modelled from the spec: the external regex engine's replace-all for
nonempty literal patterns (`RegexReplace` "replaces all non-overlapping
matches of `pattern` in `input`").  Scans the input left to right; at each
position, when the literal pattern is a prefix of the rest, emits the
replacement and skips the matched characters, otherwise keeps the current
character.  `fuel` bounds the recursion; each step consumes at least one
input character, so `fuel = input.length` suffices. -/
def replaceAllFuel (p r : Str) : Nat → Str → Str
  | _, [] => []
  | 0, s => s
  | fuel + 1, c :: s =>
    if !p.isEmpty && isPref p (c :: s) then
      r ++ replaceAllFuel p r fuel (s.drop (p.length - 1))
    else
      c :: replaceAllFuel p r fuel s

/-- Replace every non-overlapping occurrence of the literal pattern `p` in
`s` by `r` (the behaviour of `re.replace_all` for a literal pattern). -/
def replaceAll (p r s : Str) : Str := replaceAllFuel p r s.length s

/-- Helper for `unique`: keeps the elements not yet seen, first occurrence
first, accumulating the seen values. -/
def uniqueAux (seen : List Str) : List Str → List Str
  | [] => []
  | x :: xs => if x ∈ seen then uniqueAux seen xs else x :: uniqueAux (x :: seen) xs

/-- Modelled from the spec: itertools' `unique()` adaptor used by
`StatusLineFormatter::format` — removes exact duplicates, yielding only the
first occurrence of each value, in order. -/
def unique (l : List Str) : List Str := uniqueAux [] l

/-- Modelled from the spec: the fixed, enumerable set of case conventions of
the external case-converter crate ("the supported set is fixed and
enumerable, e.g. flat/upper/lower/title/camel/pascal/snake/kebab or
equivalent"). -/
inductive Case where
  | Upper | Lower | Title | Toggle | Camel | Pascal | UpperCamel
  | Snake | UpperSnake | ScreamingSnake | Kebab | Cobol | UpperKebab
  | Train | Flat | UpperFlat | Alternating
  deriving DecidableEq

/-- The crate's `Case::all_cases()`: every supported case variant. -/
def all_cases : List Case :=
  [.Upper, .Lower, .Title, .Toggle, .Camel, .Pascal, .UpperCamel,
   .Snake, .UpperSnake, .ScreamingSnake, .Kebab, .Cobol, .UpperKebab,
   .Train, .Flat, .UpperFlat, .Alternating]

/-- The debug rendering `format!("{:?}", case)` of a case variant: its name. -/
def caseName : Case → Str
  | .Upper => "Upper".data
  | .Lower => "Lower".data
  | .Title => "Title".data
  | .Toggle => "Toggle".data
  | .Camel => "Camel".data
  | .Pascal => "Pascal".data
  | .UpperCamel => "UpperCamel".data
  | .Snake => "Snake".data
  | .UpperSnake => "UpperSnake".data
  | .ScreamingSnake => "ScreamingSnake".data
  | .Kebab => "Kebab".data
  | .Cobol => "Cobol".data
  | .UpperKebab => "UpperKebab".data
  | .Train => "Train".data
  | .Flat => "Flat".data
  | .UpperFlat => "UpperFlat".data
  | .Alternating => "Alternating".data

/-- Modelled from the spec: the case-converter's conversion to `Case::Flat`
("normalizes the input name to a canonical flat form"; "match is case- and
separator-insensitive"): letters are lower-cased and separator characters
dropped, leaving only lower-cased alphanumeric characters. -/
def toFlat (s : Str) : Str := (s.filter Char.isAlphanum).map Char.toLower

/-- The error type of the repository (`RahmenError`), restricted to the
variants the formatting engine produces. -/
inductive RahmenError where
  | CaseUnknown (s : Str)
  | PatternInvalid (s : Str)
  | MetadataMissing
  deriving DecidableEq

/-- `str_to_case` from `src/provider.rs`: flat-canonicalize the input and
return the first supported case variant whose canonicalized debug name
matches, else `CaseUnknown`. -/
def str_to_case (s : Str) : Except RahmenError Case :=
  let case_str := toFlat s
  match all_cases.find? (fun case => case_str == toFlat (caseName case)) with
  | some case => .ok case
  | none => .error (.CaseUnknown s)

/-- The `ok` value of an `Except`, when there is one. -/
def okCase : Except RahmenError Case → Option Case
  | .ok c => some c
  | .error _ => none

/-- A compiled regex of the literal-pattern fragment: `Regex::new` on a
literal pattern stores the pattern itself as the matcher. -/
structure Regex where
  pattern : Str
  deriving DecidableEq

/-- An abstract regex compiler standing for the external `Regex::new`, which
may reject a pattern; instantiated concretely in witnesses. -/
abbrev RegexNew := Str → Except RahmenError Regex

/-- The compiler of the literal-pattern fragment: every literal pattern
compiles to itself. -/
def litRegexNew : RegexNew := fun p => .ok ⟨p⟩

/-- An abstract case converter standing for the external
`input.from_case(f).to_case(t)` of the case-converter crate. -/
abbrev CaseConv := Case → Case → Str → Str

/-- A trivial concrete case converter, used to instantiate witnesses. -/
def idCaseConv : CaseConv := fun _ _ s => s

/-- `LineSettings` from `src/provider.rs`. -/
structure LineSettings where
  separator : Str
  uniquify : Bool
  hide_empty : Bool

/-- A `Replacement` configuration entry (`{regex, replace}`). -/
structure Replacement where
  regex : Str
  replace : Str
  deriving DecidableEq

/-- A `case_conversion` configuration entry (`{from, to}`; the source field
names `from`/`to` are Lean keywords, hence `cfrom`/`cto`). -/
structure CaseConversion where
  cfrom : Str
  cto : Str
  deriving DecidableEq

/-- An `Element` configuration entry from `crate::config`, as described by
the spec's interface section: `{exif_tags, case_conversion, capitalize,
replace}`. -/
structure Element where
  exif_tags : List Str
  case_conversion : Option CaseConversion
  capitalize : Option Bool
  replace : Option (List Replacement)

/-- `StatusLineTransformation` from `src/provider.rs`. -/
inductive StatusLineTransformation where
  | RegexReplace (re : Regex) (replacement : Str)
  | Capitalize
  | ChangeCase (f t : Case)
  deriving DecidableEq

/-- `StatusLineTransformation::transform`: `RegexReplace` delegates to the
regex engine's replace-all; `Capitalize` is `from_case(Upper).to_case(Title)`;
`ChangeCase(f, t)` is `from_case(f).to_case(t)` — the latter two through the
abstract converter `conv`. -/
def StatusLineTransformation.transform (conv : CaseConv) :
    StatusLineTransformation → Str → Str
  | .RegexReplace re replacement, input => replaceAll re.pattern replacement input
  | .Capitalize, input => conv .Upper .Title input
  | .ChangeCase f t, input => conv f t input

/-- `TryFrom<Replacement> for StatusLineTransformation`: compile the regex
(propagating failure) and store it with the replacement text. -/
def StatusLineTransformation.try_from (newRegex : RegexNew) (value : Replacement) :
    Except RahmenError StatusLineTransformation := do
  let re ← newRegex value.regex
  .ok (.RegexReplace re value.replace)

/-- `StatusLineElement` from `src/provider.rs`. -/
structure StatusLineElement where
  tags : List Str
  transformations : List StatusLineTransformation
  deriving DecidableEq

/-- The regex-replacement part of `TryFrom<Element>`: for each configured
replacement in order, compile its regex (propagating the first failure) and
collect the `RegexReplace` transformations. -/
def buildRegexTs (newRegex : RegexNew) :
    List Replacement → Except RahmenError (List StatusLineTransformation)
  | [] => .ok []
  | rep :: rest => do
    let re ← newRegex rep.regex
    let ts ← buildRegexTs newRegex rest
    .ok (.RegexReplace re rep.replace :: ts)

/-- The case-conversion part of `TryFrom<Element>`: when a conversion is
configured, resolve both its names through `str_to_case` (propagating
failure) and yield the single `ChangeCase` transformation; nothing
otherwise. -/
def buildCaseTs : Option CaseConversion →
    Except RahmenError (List StatusLineTransformation)
  | some case_conversion => do
    let f ← str_to_case case_conversion.cfrom
    let t ← str_to_case case_conversion.cto
    .ok [StatusLineTransformation.ChangeCase f t]
  | none => .ok []

/-- `TryFrom<Element> for StatusLineElement`: push the case conversion (if
configured, resolving both names through `str_to_case`), then `Capitalize`
(if configured), then the compiled regex replacements in configured order;
store them with the element's tag list. -/
def StatusLineElement.try_from (newRegex : RegexNew) (value : Element) :
    Except RahmenError StatusLineElement := do
  let caseTs ← buildCaseTs value.case_conversion
  let capTs := if value.capitalize.getD false then [StatusLineTransformation.Capitalize] else []
  let regexTs ← buildRegexTs newRegex (value.replace.getD [])
  .ok { tags := value.exif_tags, transformations := caseTs ++ capTs ++ regexTs }

/-- Modelled from the spec: the external metadata record, a partial map from
tag name to interpreted string value (`get_tag_interpreted_string(f).ok()`). -/
abbrev Metadata := Str → Option Str

/-- `StatusLineElement::process`: map each tag to its metadata lookup, take
the first present value, and fold every stored transformation over it in
order; `none` when no tag is present. -/
def StatusLineElement.process (conv : CaseConv) (el : StatusLineElement)
    (metadata : Metadata) : Option Str :=
  match ((el.tags.map metadata).find? (fun o => o.isSome)).join with
  | some value =>
    some (el.transformations.foldl (fun v t => t.transform conv v) value)
  | none => none

/-- `StatusLineFormatter` from `src/provider.rs`; the Python postprocess
hook is embedded as an optional function from `(input, separator)` to a list
of strings (the code unwraps hook failures, which is out of scope here). -/
structure StatusLineFormatter where
  elements : List StatusLineElement
  line_transformations : List StatusLineTransformation
  line_settings : LineSettings
  py_postprocess_fn : Option (Str → Str → List Str)

/-- The `element_iter` of `StatusLineFormatter::format`: each element's
processed value; an element resolving to nothing is dropped when
`hide_empty` is set and contributes an empty-string placeholder otherwise. -/
def StatusLineFormatter.resolvedSeq (conv : CaseConv) (f : StatusLineFormatter)
    (metadata : Metadata) : List Str :=
  f.elements.filterMap (fun element =>
    match element.process conv metadata with
    | some v => some v
    | none => if f.line_settings.hide_empty then none else some [])

/-- The `status_line` assembly of `StatusLineFormatter::format`: the four
arms of the match on `(hide_empty, uniquify)`. -/
def StatusLineFormatter.assembled (conv : CaseConv) (f : StatusLineFormatter)
    (metadata : Metadata) : Str :=
  match f.line_settings.hide_empty, f.line_settings.uniquify with
  | true, true =>
    List.intercalate f.line_settings.separator
      (unique ((f.resolvedSeq conv metadata).filter (fun x => !x.isEmpty)))
  | false, false =>
    List.intercalate f.line_settings.separator (f.resolvedSeq conv metadata)
  | true, false =>
    List.intercalate f.line_settings.separator
      ((f.resolvedSeq conv metadata).filter (fun x => !x.isEmpty))
  | false, true =>
    List.intercalate f.line_settings.separator (unique (f.resolvedSeq conv metadata))

/-- The list of strings each arm of the assembly match hands to the joining
`join(separator)` — the sequence entering the join step. -/
def StatusLineFormatter.preJoin (conv : CaseConv) (f : StatusLineFormatter)
    (metadata : Metadata) : List Str :=
  match f.line_settings.hide_empty, f.line_settings.uniquify with
  | true, true => unique ((f.resolvedSeq conv metadata).filter (fun x => !x.isEmpty))
  | false, false => f.resolvedSeq conv metadata
  | true, false => (f.resolvedSeq conv metadata).filter (fun x => !x.isEmpty)
  | false, true => unique (f.resolvedSeq conv metadata)

/-- The status line after the fold of the line-level transformations. -/
def StatusLineFormatter.lineTransformed (conv : CaseConv) (f : StatusLineFormatter)
    (metadata : Metadata) : Str :=
  f.line_transformations.foldl (fun sl t => t.transform conv sl)
    (f.assembled conv metadata)

/-- `StatusLineFormatter::format` after the metadata lookup: assembly, line
transformations, then — when a hook is configured — one hook call on the
line and the separator, whose result is filtered of empties, deduplicated
and rejoined with the separator. -/
def StatusLineFormatter.format (conv : CaseConv) (f : StatusLineFormatter)
    (metadata : Metadata) : Str :=
  match f.py_postprocess_fn with
  | some c =>
    List.intercalate f.line_settings.separator
      (unique (((c (f.lineTransformed conv metadata) f.line_settings.separator)).filter
        (fun x => !x.isEmpty)))
  | none => f.lineTransformed conv metadata

/-! Concrete configurations used by witnesses and counterexamples. -/

/-- An element reading the `City` tag, with no transformations. -/
def exampleCityElement : StatusLineElement :=
  { tags := ["City".data], transformations := [] }

/-- An element reading the `ProvinceState` tag, with no transformations. -/
def exampleProvinceElement : StatusLineElement :=
  { tags := ["ProvinceState".data], transformations := [] }

/-- Settings `separator = ", "`, `uniquify = true`, `hide_empty = false`. -/
def exampleDupFormatter : StatusLineFormatter :=
  { elements := [exampleCityElement, exampleProvinceElement],
    line_transformations := [],
    line_settings := { separator := ", ".data, uniquify := true, hide_empty := false },
    py_postprocess_fn := none }

/-- The same elements with `uniquify = false`, `hide_empty = false`. -/
def exampleNoUniqFormatter : StatusLineFormatter :=
  { elements := [exampleCityElement, exampleProvinceElement],
    line_transformations := [],
    line_settings := { separator := ", ".data, uniquify := false, hide_empty := false },
    py_postprocess_fn := none }

/-- A metadata record where both `City` and `ProvinceState` read `Berlin`. -/
def exampleBerlinMetadata : Metadata := fun t =>
  if t = "City".data ∨ t = "ProvinceState".data then some "Berlin".data else none

/-- A concrete postprocess hook returning the line, an empty string and the
line again. -/
def exampleHook : Str → Str → List Str := fun s _ => [s, [], s]

/-- The duplicate-value formatter with the concrete hook attached. -/
def exampleHookFormatter : StatusLineFormatter :=
  { exampleDupFormatter with py_postprocess_fn := some exampleHook }

/-- An element configuration whose tag list is empty and which configures no
transformation. -/
def emptyTagsElementCfg : Element :=
  { exif_tags := [], case_conversion := none, capitalize := none, replace := none }

/-- An element configuration exercising every transformation field: a case
conversion from `snake` to `kebab`, capitalization, and one replacement. -/
def exampleFullCfg : Element :=
  { exif_tags := ["City".data],
    case_conversion := some { cfrom := "snake".data, cto := "kebab".data },
    capitalize := some true,
    replace := some [{ regex := "x".data, replace := "y".data }] }

/-- The element built from `exampleFullCfg` by the literal-fragment
compiler. -/
def exampleFullElement : StatusLineElement :=
  { tags := ["City".data],
    transformations :=
      [.ChangeCase Case.Snake Case.Kebab, .Capitalize,
       .RegexReplace ⟨"x".data⟩ "y".data] }

/-! Spec-side definitions, written from the spec's words, to be compared
with the embeddings of the source above. -/

/-- Spec-side element resolution: "iterate tag names in configured order;
the first tag name that yields a present value wins" — absence just means
"try next". -/
def firstPresent (metadata : Metadata) : List Str → Option Str
  | [] => none
  | t :: ts =>
    match metadata t with
    | some v => some v
    | none => firstPresent metadata ts

/-- Spec-side "drop empties": remove the empty strings from the list. -/
def specDropEmpty (l : List Str) : List Str := l.filter (fun x => !x.isEmpty)

/-- Spec-side "deduplicate exact-string matches preserving first-seen
order": walk the list left to right, appending each value not seen before. -/
def specDedupFirst (l : List Str) : List Str :=
  l.foldl (fun acc x => if x ∈ acc then acc else acc ++ [x]) []

/-- Spec-side assembly policy: the four behaviours keyed by
`(hide_empty, uniquify)` exactly as the spec words them. -/
def specAssemble (hide uniq : Bool) (sep : Str) (l : List Str) : Str :=
  match hide, uniq with
  | true, true => List.intercalate sep (specDedupFirst (specDropEmpty l))
  | false, false => List.intercalate sep l
  | true, false => List.intercalate sep (specDropEmpty l)
  | false, true => List.intercalate sep (specDedupFirst l)

/-- Spec-side treatment of a postprocess hook's result: "unconditionally
drop empty strings from this list and deduplicate exact matches preserving
order, then rejoin with `separator`". -/
def specPostprocessList (sep : Str) (l : List Str) : Str :=
  List.intercalate sep (specDedupFirst (specDropEmpty l))

/-! Supporting lemmas. -/

/-- The fold of `specDedupFirst` agrees with `uniqueAux` whenever the
accumulator and the seen set have the same members. -/
theorem foldl_dedup_eq_uniqueAux (l : List Str) :
    ∀ (acc seen : List Str), (∀ x : Str, x ∈ seen ↔ x ∈ acc) →
      l.foldl (fun acc x => if x ∈ acc then acc else acc ++ [x]) acc =
        acc ++ uniqueAux seen l := by
  induction l with
  | nil => intro acc seen _; simp [uniqueAux]
  | cons x xs ih =>
    intro acc seen h
    by_cases hx : x ∈ acc
    · have hseen : x ∈ seen := (h x).mpr hx
      simp only [List.foldl_cons, if_pos hx, uniqueAux, if_pos hseen]
      exact ih acc seen h
    · have hseen : x ∉ seen := fun hc => hx ((h x).mp hc)
      simp only [List.foldl_cons, if_neg hx, uniqueAux, if_neg hseen]
      rw [ih (acc ++ [x]) (x :: seen) (by
        intro y
        simp only [List.mem_cons, List.mem_append, List.mem_singleton, h y]
        tauto)]
      simp

/-- `unique` is exactly the spec's first-seen-order deduplication. -/
theorem specDedupFirst_eq_unique (l : List Str) : specDedupFirst l = unique l := by
  simpa [specDedupFirst, unique] using
    foldl_dedup_eq_uniqueAux l [] [] (by simp)

/-- The `map`/`find?`/`join` chain of `process` computes the spec's
first-present value. -/
theorem find_join_eq_firstPresent (metadata : Metadata) (tags : List Str) :
    ((tags.map metadata).find? (fun o => o.isSome)).join = firstPresent metadata tags := by
  induction tags with
  | nil => rfl
  | cons t ts ih =>
    cases h : metadata t with
    | some v => simp [List.find?, h, firstPresent, Option.join]
    | none => simpa [List.find?, h, firstPresent] using ih

/-- The spec's first-present value is `none` exactly when no tag is present. -/
theorem firstPresent_eq_none_iff (metadata : Metadata) (tags : List Str) :
    firstPresent metadata tags = none ↔ ∀ t ∈ tags, metadata t = none := by
  induction tags with
  | nil => simp [firstPresent]
  | cons t ts ih =>
    cases h : metadata t with
    | some v => simp [firstPresent, h]
    | none => simp [firstPresent, h, ih]

/-- A list's `filterMap` by an everywhere-defined function keeps the length. -/
theorem length_filterMap_of_total {α β : Type} (g : α → Option β) (l : List α)
    (h : ∀ a, ∃ b, g a = some b) : (l.filterMap g).length = l.length := by
  induction l with
  | nil => rfl
  | cons a as ih =>
    obtain ⟨b, hb⟩ := h a
    simp [List.filterMap_cons, hb, ih]

/-- The line-transformed status line does not depend on the postprocess
hook field. -/
theorem lineTransformed_py_irrel (conv : CaseConv) (f : StatusLineFormatter)
    (metadata : Metadata) (g : Option (Str → Str → List Str)) :
    StatusLineFormatter.lineTransformed conv { f with py_postprocess_fn := g } metadata =
      f.lineTransformed conv metadata := rfl

/-! The claims. -/

/-- C1: the assembled (pre-line-transformation) string is determined by
`(hide_empty, uniquify)` exactly as the four spec recipes describe, applied
to the resolved sequence: `(true, true)` drops empties then deduplicates
keeping first occurrences then joins; `(false, false)` joins everything;
`(true, false)` drops empties and joins; `(false, true)` deduplicates
(empty slots included) and joins. -/
theorem assembled_policy_matrix (conv : CaseConv) (f : StatusLineFormatter)
    (metadata : Metadata) :
    f.assembled conv metadata =
      specAssemble f.line_settings.hide_empty f.line_settings.uniquify
        f.line_settings.separator (f.resolvedSeq conv metadata) := by
  cases h1 : f.line_settings.hide_empty <;> cases h2 : f.line_settings.uniquify <;>
    simp [StatusLineFormatter.assembled, specAssemble, h1, h2,
      specDedupFirst_eq_unique, specDropEmpty]

/-- C2: `process` returns the value of the first configured tag present in
the metadata record with every transformation folded over it in order, and
returns `none` exactly when no configured tag is present. -/
theorem process_first_match (conv : CaseConv) (el : StatusLineElement)
    (metadata : Metadata) :
    el.process conv metadata =
      (firstPresent metadata el.tags).map
        (fun value => el.transformations.foldl (fun v t => t.transform conv v) value) ∧
    (el.process conv metadata = none ↔ ∀ t ∈ el.tags, metadata t = none) := by
  have h1 : el.process conv metadata =
      (firstPresent metadata el.tags).map
        (fun value => el.transformations.foldl (fun v t => t.transform conv v) value) := by
    unfold StatusLineElement.process
    rw [find_join_eq_firstPresent]
    cases firstPresent metadata el.tags <;> rfl
  refine ⟨h1, ?_⟩
  rw [h1, ← firstPresent_eq_none_iff metadata el.tags]
  cases firstPresent metadata el.tags <;> simp

/-- C9: `Capitalize` is definitionally the `ChangeCase` transformation from
the upper-case convention to the title-case convention: both delegate to the
same conversion with the same arguments, for every converter and input. -/
theorem capitalize_is_change_case_upper_title (conv : CaseConv) (s : Str) :
    StatusLineTransformation.Capitalize.transform conv s =
      (StatusLineTransformation.ChangeCase Case.Upper Case.Title).transform conv s := rfl

/-- C7 counterexample: with `hide_empty = false` and `uniquify = true`, two
elements resolving to the same value `Berlin` produce a deduplicated
sequence of length 1 entering the join, not the element count 2. -/
theorem pre_join_length_cex :
    exampleDupFormatter.line_settings.hide_empty = false ∧
    (exampleDupFormatter.preJoin idCaseConv exampleBerlinMetadata).length = 1 ∧
    exampleDupFormatter.elements.length = 2 ∧
    (exampleDupFormatter.preJoin idCaseConv exampleBerlinMetadata).length ≠
      exampleDupFormatter.elements.length := by decide

/-- C7 (amended): with `hide_empty = false`, the resolved sequence produced
by the presence policy has length equal to the number of configured
elements; it is the sequence entering the join exactly in the
non-deduplicating case `uniquify = false`. -/
theorem resolved_seq_length (conv : CaseConv) (f : StatusLineFormatter)
    (metadata : Metadata) (h : f.line_settings.hide_empty = false) :
    (f.resolvedSeq conv metadata).length = f.elements.length ∧
    (f.line_settings.uniquify = false →
      f.preJoin conv metadata = f.resolvedSeq conv metadata) := by
  constructor
  · unfold StatusLineFormatter.resolvedSeq
    refine length_filterMap_of_total _ _ (fun element => ?_)
    cases hp : element.process conv metadata with
    | some v => exact ⟨v, by simp [hp]⟩
    | none => exact ⟨[], by simp [hp, h]⟩
  · intro hu
    simp [StatusLineFormatter.preJoin, h, hu]

/-- C7 witness: the amended statement evaluated on the concrete
non-deduplicating formatter over the Berlin metadata record. -/
theorem resolved_seq_length_witness :
    (exampleNoUniqFormatter.resolvedSeq idCaseConv exampleBerlinMetadata).length =
      exampleNoUniqFormatter.elements.length ∧
    (exampleNoUniqFormatter.line_settings.uniquify = false →
      exampleNoUniqFormatter.preJoin idCaseConv exampleBerlinMetadata =
        exampleNoUniqFormatter.resolvedSeq idCaseConv exampleBerlinMetadata) :=
  resolved_seq_length idCaseConv exampleNoUniqFormatter exampleBerlinMetadata rfl

/-- C3: with a hook configured, `format` is the hook's output at the
line-transformed string and the separator, unconditionally filtered of
empties, deduplicated first-seen and rejoined; without a hook, it is the
line-transformed string; and the result depends on a configured hook only
through its value at that one argument pair. -/
theorem format_postprocess_hook (conv : CaseConv) (f : StatusLineFormatter)
    (metadata : Metadata) :
    (∀ c, f.py_postprocess_fn = some c →
      f.format conv metadata =
        specPostprocessList f.line_settings.separator
          (c (f.lineTransformed conv metadata) f.line_settings.separator)) ∧
    (f.py_postprocess_fn = none → f.format conv metadata = f.lineTransformed conv metadata) ∧
    (∀ g hk, g (f.lineTransformed conv metadata) f.line_settings.separator =
        hk (f.lineTransformed conv metadata) f.line_settings.separator →
      StatusLineFormatter.format conv { f with py_postprocess_fn := some g } metadata =
        StatusLineFormatter.format conv { f with py_postprocess_fn := some hk } metadata) := by
  refine ⟨fun c hc => ?_, fun hn => ?_, fun g hk hghk => ?_⟩
  · simp [StatusLineFormatter.format, hc, specPostprocessList,
      specDedupFirst_eq_unique, specDropEmpty]
  · simp [StatusLineFormatter.format, hn]
  · simp only [StatusLineFormatter.format, lineTransformed_py_irrel]
    rw [hghk]

/-- C3 witness: the hook equation evaluated on the concrete hook formatter
over the Berlin metadata record. -/
theorem format_postprocess_hook_witness :
    exampleHookFormatter.format idCaseConv exampleBerlinMetadata =
      specPostprocessList exampleHookFormatter.line_settings.separator
        (exampleHook (exampleHookFormatter.lineTransformed idCaseConv exampleBerlinMetadata)
          exampleHookFormatter.line_settings.separator) :=
  (format_postprocess_hook idCaseConv exampleHookFormatter exampleBerlinMetadata).1
    exampleHook rfl

/-- Inversion of element construction: success determines both
subcomputations and the shape of the result. -/
theorem try_from_inv (newRegex : RegexNew) (cfg : Element) (el : StatusLineElement)
    (h : StatusLineElement.try_from newRegex cfg = .ok el) :
    ∃ caseTs regexTs, buildCaseTs cfg.case_conversion = .ok caseTs ∧
      buildRegexTs newRegex (cfg.replace.getD []) = .ok regexTs ∧
      el = { tags := cfg.exif_tags,
             transformations := caseTs ++
               (if cfg.capitalize.getD false then [StatusLineTransformation.Capitalize] else []) ++
               regexTs } := by
  unfold StatusLineElement.try_from at h
  cases hc : buildCaseTs cfg.case_conversion with
  | error e => rw [hc] at h; simp [Bind.bind, Except.bind] at h
  | ok caseTs =>
    rw [hc] at h
    cases hr : buildRegexTs newRegex (cfg.replace.getD []) with
    | error e => rw [hr] at h; simp [Bind.bind, Except.bind] at h
    | ok regexTs =>
      rw [hr] at h
      simp only [Bind.bind, Except.bind, Except.ok.injEq] at h
      exact ⟨caseTs, regexTs, rfl, rfl, h.symm⟩

/-- Inversion of the case-conversion subcomputation on a configured
conversion. -/
theorem buildCaseTs_some_inv (case_conversion : CaseConversion)
    (ts : List StatusLineTransformation)
    (h : buildCaseTs (some case_conversion) = .ok ts) :
    ∃ f t, str_to_case case_conversion.cfrom = .ok f ∧
      str_to_case case_conversion.cto = .ok t ∧
      ts = [StatusLineTransformation.ChangeCase f t] := by
  simp only [buildCaseTs] at h
  cases hf : str_to_case case_conversion.cfrom with
  | error e => rw [hf] at h; simp [Bind.bind, Except.bind] at h
  | ok f =>
    rw [hf] at h
    cases ht : str_to_case case_conversion.cto with
    | error e => rw [ht] at h; simp [Bind.bind, Except.bind] at h
    | ok t =>
      rw [ht] at h
      simp only [Bind.bind, Except.bind, Except.ok.injEq] at h
      exact ⟨f, t, rfl, rfl, h.symm⟩

/-- The case-conversion subcomputation succeeds exactly when both configured
names resolve to case variants. -/
theorem buildCaseTs_ok_iff (o : Option CaseConversion) :
    (∃ ts, buildCaseTs o = .ok ts) ↔
      ∀ case_conversion, o = some case_conversion →
        (∃ c, str_to_case case_conversion.cfrom = .ok c) ∧
          ∃ c, str_to_case case_conversion.cto = .ok c := by
  cases o with
  | none => simp [buildCaseTs]
  | some case_conversion =>
    simp only [Option.some.injEq, forall_eq']
    constructor
    · rintro ⟨ts, h⟩
      obtain ⟨f, t, hf, ht, _⟩ := buildCaseTs_some_inv case_conversion ts h
      exact ⟨⟨f, hf⟩, ⟨t, ht⟩⟩
    · rintro ⟨⟨f, hf⟩, ⟨t, ht⟩⟩
      exact ⟨[StatusLineTransformation.ChangeCase f t],
        by simp [buildCaseTs, hf, ht, Bind.bind, Except.bind]⟩

/-- Successful regex-list construction relates configuration entries and
transformations pairwise, in configured order. -/
theorem buildRegexTs_forall₂ (newRegex : RegexNew) :
    ∀ (reps : List Replacement) (ts : List StatusLineTransformation),
      buildRegexTs newRegex reps = .ok ts →
      List.Forall₂ (fun rep t => ∃ re, newRegex rep.regex = .ok re ∧
        t = StatusLineTransformation.RegexReplace re rep.replace) reps ts := by
  intro reps
  induction reps with
  | nil =>
    intro ts h
    simp only [buildRegexTs, Except.ok.injEq] at h
    rw [← h]
    exact List.Forall₂.nil
  | cons rep rest ih =>
    intro ts h
    unfold buildRegexTs at h
    cases hre : newRegex rep.regex with
    | error e => rw [hre] at h; simp [Bind.bind, Except.bind] at h
    | ok re =>
      rw [hre] at h
      cases hrest : buildRegexTs newRegex rest with
      | error e => rw [hrest] at h; simp [Bind.bind, Except.bind] at h
      | ok rest_ts =>
        rw [hrest] at h
        simp only [Bind.bind, Except.bind, Except.ok.injEq] at h
        rw [← h]
        exact List.Forall₂.cons ⟨re, hre, rfl⟩ (ih rest_ts hrest)

/-- Regex-list construction succeeds exactly when every configured pattern
compiles. -/
theorem buildRegexTs_ok_iff (newRegex : RegexNew) (reps : List Replacement) :
    (∃ ts, buildRegexTs newRegex reps = .ok ts) ↔
      ∀ rep ∈ reps, ∃ re, newRegex rep.regex = .ok re := by
  induction reps with
  | nil => simp [buildRegexTs]
  | cons rep rest ih =>
    constructor
    · rintro ⟨ts, h⟩
      unfold buildRegexTs at h
      cases hre : newRegex rep.regex with
      | error e => rw [hre] at h; simp [Bind.bind, Except.bind] at h
      | ok re =>
        rw [hre] at h
        cases hrest : buildRegexTs newRegex rest with
        | error e => rw [hrest] at h; simp [Bind.bind, Except.bind] at h
        | ok rest_ts =>
          intro r hr
          rcases List.mem_cons.mp hr with hr | hr
          · exact ⟨re, by rw [hr]; exact hre⟩
          · exact ih.mp ⟨rest_ts, hrest⟩ r hr
    · intro hall
      obtain ⟨re, hre⟩ := hall rep (List.mem_cons_self rep rest)
      obtain ⟨ts, hts⟩ := ih.mpr (fun r hr => hall r (List.mem_cons_of_mem rep hr))
      exact ⟨StatusLineTransformation.RegexReplace re rep.replace :: ts,
        by simp [buildRegexTs, hre, hts, Bind.bind, Except.bind]⟩

/-- C4 counterexample: constructing an element from a configuration whose
`exif_tags` list is empty succeeds — the claimed configuration error is
never raised. -/
theorem empty_tag_list_accepted_cex :
    emptyTagsElementCfg.exif_tags = [] ∧
    StatusLineElement.try_from litRegexNew emptyTagsElementCfg =
      .ok { tags := [], transformations := [] } := ⟨rfl, rfl⟩

/-- C4 (amended): an empty tag list is silently accepted — construction does
not validate `exif_tags`; an element built from an empty-tag configuration
resolves no value (its `process` is always `none`), and with no
transformations configured the construction succeeds outright. -/
theorem empty_tag_list_silent (newRegex : RegexNew) (cfg : Element)
    (h : cfg.exif_tags = []) :
    (∀ el, StatusLineElement.try_from newRegex cfg = .ok el →
      ∀ (conv : CaseConv) (metadata : Metadata), el.process conv metadata = none) ∧
    (cfg.case_conversion = none → cfg.replace = none →
      ∃ el, StatusLineElement.try_from newRegex cfg = .ok el) := by
  constructor
  · intro el hel conv metadata
    obtain ⟨caseTs, regexTs, _, _, hshape⟩ := try_from_inv newRegex cfg el hel
    rw [hshape]
    simp [StatusLineElement.process, h]
  · intro h1 h2
    have hok : StatusLineElement.try_from newRegex cfg =
        .ok { tags := cfg.exif_tags,
              transformations := [] ++
                (if cfg.capitalize.getD false then [StatusLineTransformation.Capitalize]
                 else []) ++ [] } := by
      simp [StatusLineElement.try_from, h1, h2, buildCaseTs, buildRegexTs,
        Bind.bind, Except.bind]
    exact ⟨_, hok⟩

/-- C4 witness: the amended statement evaluated on the concrete empty-tag
configuration. -/
theorem empty_tag_list_silent_witness :
    (∀ el, StatusLineElement.try_from litRegexNew emptyTagsElementCfg = .ok el →
      ∀ (conv : CaseConv) (metadata : Metadata), el.process conv metadata = none) ∧
    (emptyTagsElementCfg.case_conversion = none → emptyTagsElementCfg.replace = none →
      ∃ el, StatusLineElement.try_from litRegexNew emptyTagsElementCfg = .ok el) :=
  empty_tag_list_silent litRegexNew emptyTagsElementCfg rfl

/-- C5: element construction succeeds exactly when every configured case
name resolves and every configured pattern compiles (so a compilation or
lookup failure always surfaces as a construction error), and likewise a
line-level replacement entry constructs exactly when its pattern compiles;
the stored transformations carry only compiled regexes and resolved cases,
so `transform` involves no compilation or lookup. -/
theorem try_from_validates (newRegex : RegexNew) (cfg : Element) :
    ((∃ el, StatusLineElement.try_from newRegex cfg = .ok el) ↔
      ((∀ case_conversion, cfg.case_conversion = some case_conversion →
          (∃ c, str_to_case case_conversion.cfrom = .ok c) ∧
            ∃ c, str_to_case case_conversion.cto = .ok c) ∧
        ∀ rep ∈ cfg.replace.getD [], ∃ re, newRegex rep.regex = .ok re)) ∧
    (∀ rep : Replacement,
      (∃ t, StatusLineTransformation.try_from newRegex rep = .ok t) ↔
        ∃ re, newRegex rep.regex = .ok re) := by
  constructor
  · constructor
    · rintro ⟨el, hel⟩
      obtain ⟨caseTs, regexTs, hc, hr, _⟩ := try_from_inv newRegex cfg el hel
      exact ⟨(buildCaseTs_ok_iff _).mp ⟨caseTs, hc⟩,
        (buildRegexTs_ok_iff _ _).mp ⟨regexTs, hr⟩⟩
    · rintro ⟨hcase, hreps⟩
      obtain ⟨caseTs, hc⟩ := (buildCaseTs_ok_iff _).mpr hcase
      obtain ⟨regexTs, hr⟩ := (buildRegexTs_ok_iff _ _).mpr hreps
      have hok : StatusLineElement.try_from newRegex cfg =
          .ok { tags := cfg.exif_tags,
                transformations := caseTs ++
                  (if cfg.capitalize.getD false then [StatusLineTransformation.Capitalize]
                   else []) ++ regexTs } := by
        simp [StatusLineElement.try_from, hc, hr, Bind.bind, Except.bind]
      exact ⟨_, hok⟩
  · intro rep
    constructor
    · rintro ⟨t, ht⟩
      unfold StatusLineTransformation.try_from at ht
      cases hre : newRegex rep.regex with
      | error e => rw [hre] at ht; simp [Bind.bind, Except.bind] at ht
      | ok re => exact ⟨re, rfl⟩
    · rintro ⟨re, hre⟩
      exact ⟨StatusLineTransformation.RegexReplace re rep.replace,
        by simp [StatusLineTransformation.try_from, hre, Bind.bind, Except.bind]⟩

/-- C5 witness: the full example configuration constructs successfully under
the literal-fragment compiler, via the validation equivalence. -/
theorem try_from_validates_witness :
    ∃ el, StatusLineElement.try_from litRegexNew exampleFullCfg = .ok el :=
  (try_from_validates litRegexNew exampleFullCfg).1.mpr
    ⟨by
      intro cc hcc
      have : some { cfrom := "snake".data, cto := "kebab".data } = some cc := hcc
      cases this
      exact ⟨⟨Case.Snake, rfl⟩, ⟨Case.Kebab, rfl⟩⟩,
     fun rep _ => ⟨⟨rep.regex⟩, rfl⟩⟩

/-- C10: transformations built from a configuration always come in the
fixed order — the case conversion (when configured) first, then
`Capitalize` (when configured), then the regex replacements in configured
order — so a replacement never precedes a case conversion or
capitalization. -/
theorem try_from_transformation_order (newRegex : RegexNew) (cfg : Element)
    (el : StatusLineElement)
    (h : StatusLineElement.try_from newRegex cfg = .ok el) :
    ∃ caseTs regexTs,
      el.transformations = caseTs ++
        (if cfg.capitalize.getD false then [StatusLineTransformation.Capitalize] else []) ++
        regexTs ∧
      ((cfg.case_conversion = none ∧ caseTs = []) ∨
        ∃ case_conversion f t, cfg.case_conversion = some case_conversion ∧
          str_to_case case_conversion.cfrom = .ok f ∧
          str_to_case case_conversion.cto = .ok t ∧
          caseTs = [StatusLineTransformation.ChangeCase f t]) ∧
      List.Forall₂ (fun rep t => ∃ re, newRegex rep.regex = .ok re ∧
        t = StatusLineTransformation.RegexReplace re rep.replace)
        (cfg.replace.getD []) regexTs := by
  obtain ⟨caseTs, regexTs, hc, hr, hshape⟩ := try_from_inv newRegex cfg el h
  refine ⟨caseTs, regexTs, by rw [hshape], ?_, buildRegexTs_forall₂ newRegex _ _ hr⟩
  cases hcc : cfg.case_conversion with
  | none =>
    rw [hcc] at hc
    simp only [buildCaseTs, Except.ok.injEq] at hc
    exact Or.inl ⟨rfl, hc.symm⟩
  | some case_conversion =>
    rw [hcc] at hc
    obtain ⟨f, t, hf, ht, hts⟩ := buildCaseTs_some_inv case_conversion caseTs hc
    exact Or.inr ⟨case_conversion, f, t, rfl, hf, ht, hts⟩

/-- C10 witness: the decomposition evaluated on the full example
configuration and its constructed element. -/
theorem try_from_transformation_order_witness :
    ∃ caseTs regexTs,
      exampleFullElement.transformations = caseTs ++
        (if exampleFullCfg.capitalize.getD false then [StatusLineTransformation.Capitalize] else []) ++
        regexTs ∧
      ((exampleFullCfg.case_conversion = none ∧ caseTs = []) ∨
        ∃ case_conversion f t, exampleFullCfg.case_conversion = some case_conversion ∧
          str_to_case case_conversion.cfrom = .ok f ∧
          str_to_case case_conversion.cto = .ok t ∧
          caseTs = [StatusLineTransformation.ChangeCase f t]) ∧
      List.Forall₂ (fun rep t => ∃ re, litRegexNew rep.regex = .ok re ∧
        t = StatusLineTransformation.RegexReplace re rep.replace)
        (exampleFullCfg.replace.getD []) regexTs :=
  try_from_transformation_order litRegexNew exampleFullCfg exampleFullElement rfl

/-- On a string the pattern does not occur in, fueled replace-all is the
identity. -/
theorem replaceAllFuel_no_match (p r : Str) :
    ∀ (fuel : Nat) (s : Str), containsSeq p s = false →
      replaceAllFuel p r fuel s = s := by
  intro fuel
  induction fuel with
  | zero => intro s _; cases s <;> rfl
  | succ fuel ih =>
    intro s h
    cases s with
    | nil => rfl
    | cons c cs =>
      have hboth := Bool.or_eq_false_iff.mp h
      unfold replaceAllFuel
      rw [hboth.1, Bool.and_false, if_neg (by simp)]
      rw [ih cs hboth.2]

/-- On a string the pattern does not occur in, replace-all is the
identity. -/
theorem replaceAll_no_match (p r s : Str) (h : containsSeq p s = false) :
    replaceAll p r s = s := replaceAllFuel_no_match p r s.length s h

/-- C6 counterexample: the pattern `ab` does not match its replacement text
`a`, yet on the input `abb` the transformation is not idempotent: one
application yields `ab`, a second application yields `a`. -/
theorem regex_replace_idempotent_cex :
    containsSeq "ab".data "a".data = false ∧
    (StatusLineTransformation.RegexReplace ⟨"ab".data⟩ "a".data).transform idCaseConv
        ((StatusLineTransformation.RegexReplace ⟨"ab".data⟩ "a".data).transform
          idCaseConv "abb".data) ≠
      (StatusLineTransformation.RegexReplace ⟨"ab".data⟩ "a".data).transform
        idCaseConv "abb".data := by decide

/-- C6 (amended): a `RegexReplace` transformation is idempotent on every
input whose once-transformed string the pattern does not match:
`transform(transform(x)) = transform(x)` whenever the pattern has no match
in `transform(x)`. -/
theorem regex_replace_idempotent (conv : CaseConv) (re : Regex)
    (replacement x : Str)
    (h : containsSeq re.pattern
        ((StatusLineTransformation.RegexReplace re replacement).transform conv x) = false) :
    (StatusLineTransformation.RegexReplace re replacement).transform conv
        ((StatusLineTransformation.RegexReplace re replacement).transform conv x) =
      (StatusLineTransformation.RegexReplace re replacement).transform conv x :=
  replaceAll_no_match re.pattern replacement _ h

/-- C6 witness: pattern `ab`, replacement `c`, input `abb`: the transformed
string `cb` has no match, and the equation holds there. -/
theorem regex_replace_idempotent_witness :
    (StatusLineTransformation.RegexReplace ⟨"ab".data⟩ "c".data).transform idCaseConv
        ((StatusLineTransformation.RegexReplace ⟨"ab".data⟩ "c".data).transform
          idCaseConv "abb".data) =
      (StatusLineTransformation.RegexReplace ⟨"ab".data⟩ "c".data).transform
        idCaseConv "abb".data :=
  regex_replace_idempotent idCaseConv ⟨"ab".data⟩ "c".data "abb".data (by decide)

/-- C8: `str_to_case` flat-canonicalizes the input and matches it against
the canonicalized name of every supported case variant — a returned variant
always has a matching canonical name, a match existing guarantees a
returned variant, the error is `CaseUnknown` on the input exactly when no
variant's canonical name matches, and the decision depends on the input
only through its canonical flat form. -/
theorem str_to_case_correct (s : Str) :
    (∀ c, str_to_case s = .ok c → c ∈ all_cases ∧ toFlat (caseName c) = toFlat s) ∧
    ((∃ c ∈ all_cases, toFlat (caseName c) = toFlat s) → ∃ c, str_to_case s = .ok c) ∧
    (str_to_case s = .error (RahmenError.CaseUnknown s) ↔
      ∀ c ∈ all_cases, toFlat (caseName c) ≠ toFlat s) ∧
    (∀ s2, toFlat s2 = toFlat s → okCase (str_to_case s2) = okCase (str_to_case s)) := by
  have hpred : ∀ s2 : Str, toFlat s2 = toFlat s →
      (fun case => toFlat s2 == toFlat (caseName case)) =
        (fun case => toFlat s == toFlat (caseName case)) := by
    intro s2 h2; funext case; rw [h2]
  cases hf : all_cases.find? (fun case => toFlat s == toFlat (caseName case)) with
  | some c =>
    have heq : str_to_case s = .ok c := by simp [str_to_case, hf]
    have hmem : c ∈ all_cases := List.mem_of_find?_eq_some hf
    have hmatch : toFlat (caseName c) = toFlat s := by
      have h0 := List.find?_some hf
      simp only [beq_iff_eq] at h0
      exact h0.symm
    refine ⟨?_, ?_, ?_, ?_⟩
    · intro c' hc'
      rw [heq] at hc'
      cases hc'
      exact ⟨hmem, hmatch⟩
    · exact fun _ => ⟨c, heq⟩
    · constructor
      · intro habs; rw [heq] at habs; cases habs
      · intro hnone; exact absurd hmatch (hnone c hmem)
    · intro s2 h2
      simp [str_to_case, okCase, hpred s2 h2, hf]
  | none =>
    have heq : str_to_case s = .error (RahmenError.CaseUnknown s) := by
      simp [str_to_case, hf]
    have hnone : ∀ c ∈ all_cases, toFlat (caseName c) ≠ toFlat s := by
      intro c hc habs
      have := List.find?_eq_none.mp hf c hc
      simp [habs] at this
    refine ⟨?_, ?_, ?_, ?_⟩
    · intro c hc; rw [heq] at hc; cases hc
    · rintro ⟨c, hc, hmatch⟩; exact absurd hmatch (hnone c hc)
    · exact ⟨fun _ => hnone, fun _ => heq⟩
    · intro s2 h2
      simp [str_to_case, okCase, hpred s2 h2, hf]

/-- C8 witness: `SNAKE` resolves to the snake variant, whose canonical name
matches the input's canonical form. -/
theorem str_to_case_correct_witness :
    Case.Snake ∈ all_cases ∧ toFlat (caseName Case.Snake) = toFlat "SNAKE".data :=
  (str_to_case_correct "SNAKE".data).1 Case.Snake rfl

